import Mathlib

/-!
Verification of the MPI Strassen matrix-multiplication repository.

Matrices (C `int**` of side `n`) are embedded as total functions
`ℕ → ℕ → ℤ`; only the entries with both indices below the side length are
meaningful, and every theorem restricts to that range.  C `int` arithmetic
is modelled by `ℤ` (signed overflow is undefined behaviour in the source,
so the idealised reading is the defined fragment).  The constants come
from `strassen_mpi.h`: `MAX_TREE_HEIGHT = 5`, `MIN_SIZE_THRESHOLD = 64`.
-/

/-- A square integer matrix, as its entry function (C `int**`). -/
abbrev Mat : Type := ℕ → ℕ → ℤ

/-- Constant `MIN_SIZE_THRESHOLD` from `strassen_mpi.h`. -/
def MIN_SIZE_THRESHOLD : ℕ := 64

/-- Constant `MAX_TREE_HEIGHT` from `strassen_mpi.h`. -/
def MAX_TREE_HEIGHT : ℕ := 5

/-- `addMatrices` from `matrix_utils.c` lines 35-43: elementwise sum. -/
def addMatrices (A B : Mat) : Mat := fun i j => A i j + B i j

/-- `subtractMatrices` from `matrix_utils.c` lines 46-54: elementwise difference. -/
def subtractMatrices (A B : Mat) : Mat := fun i j => A i j - B i j

/-- `standardMultiply` from `matrix_utils.c` lines 224-234: the cubic
product, `C[i][j] = sum over t < n of A[i][t] * B[t][j]` starting from the
zero matrix `initializeMatrix` returns. -/
def standardMultiply (A B : Mat) (n : ℕ) : Mat :=
  fun i j => ∑ t in Finset.range n, A i t * B t j

/-- Top-left output of `splitMatrix` (`matrix_utils.c` lines 57-66):
`A11[i][j] = parent[i][j]`. -/
def quad11 (parent : Mat) (_k : ℕ) : Mat := fun i j => parent i j

/-- Top-right output of `splitMatrix`: `A12[i][j] = parent[i][j + k]`. -/
def quad12 (parent : Mat) (k : ℕ) : Mat := fun i j => parent i (j + k)

/-- Bottom-left output of `splitMatrix`: `A21[i][j] = parent[i + k][j]`. -/
def quad21 (parent : Mat) (k : ℕ) : Mat := fun i j => parent (i + k) j

/-- Bottom-right output of `splitMatrix`: `A22[i][j] = parent[i + k][j + k]`. -/
def quad22 (parent : Mat) (k : ℕ) : Mat := fun i j => parent (i + k) (j + k)

/-- `combineBlocks` from `matrix_utils.c` lines 69-78: paste four side-`k`
quadrants into one side-`2k` matrix. -/
def combineBlocks (C11 C12 C21 C22 : Mat) (k : ℕ) : Mat :=
  fun i j =>
    if i < k then
      (if j < k then C11 i j else C12 i (j - k))
    else
      (if j < k then C21 (i - k) j else C22 (i - k) (j - k))

/-- `flattenMatrix` from `matrix_utils.c` lines 81-90: row-major
serialization, `flat[i*n + j] = M[i][j]`. -/
def flattenMatrix (M : Mat) (n : ℕ) : ℕ → ℤ :=
  fun idx => M (idx / n) (idx % n)

/-- `unflattenMatrix` from `matrix_utils.c` lines 93-102: inverse
deserialization, `M[i][j] = flat[i*n + j]`. -/
def unflattenMatrix (flat : ℕ → ℤ) (n : ℕ) : Mat :=
  fun i j => flat (i * n + j)

/-- `isPowerOfTwo` from `matrix_utils.c` lines 114-116:
`n > 0 && (n & (n - 1)) == 0`.  For positive `n` the C bitwise-and of
two's-complement values agrees with `Nat.land` of the magnitudes. -/
def isPowerOfTwo (n : ℤ) : Bool :=
  decide (0 < n) && (n.toNat &&& (n.toNat - 1) == 0)

/-- `shouldDistribute` from `strassen_mpi.c` lines 165-185, kept over the
C `int` domain (`ℤ`): false when `n <= MIN_SIZE_THRESHOLD`, false when
`level >= MAX_TREE_HEIGHT`, false when `rank*7 + 1 >= num_procs`, true
otherwise. -/
def shouldDistribute (n level num_procs rank : ℤ) : Bool :=
  if n ≤ (MIN_SIZE_THRESHOLD : ℤ) then false
  else if (MAX_TREE_HEIGHT : ℤ) ≤ level then false
  else if num_procs ≤ rank * 7 + 1 then false
  else true

/-- The left operand `tempA` built by the `switch` in
`computeStrassenProductMPI` (`strassen_mpi.c` lines 121-154), as a function
of the four quadrants of `A` and the product index.  `copyMatrix` is the
identity on entries.  Indices above 6 are unreachable in the source (the
`switch` would leave `tempA` NULL); the model returns the zero matrix. -/
def tempAof (A11 A12 A21 A22 : Mat) : ℕ → Mat
  | 0 => addMatrices A11 A22
  | 1 => addMatrices A21 A22
  | 2 => A11
  | 3 => A22
  | 4 => addMatrices A11 A12
  | 5 => subtractMatrices A21 A11
  | 6 => subtractMatrices A12 A22
  | _ => fun _ _ => 0

/-- The right operand `tempB` built by the same `switch`. -/
def tempBof (B11 B12 B21 B22 : Mat) : ℕ → Mat
  | 0 => addMatrices B11 B22
  | 1 => B11
  | 2 => subtractMatrices B12 B22
  | 3 => subtractMatrices B21 B11
  | 4 => B22
  | 5 => addMatrices B11 B12
  | 6 => addMatrices B21 B22
  | _ => fun _ _ => 0

mutual

/-- `strassenMultiplyMPI` from `strassen_mpi.c` lines 3-112.
Base case `n = 1` returns the scalar product in an otherwise zero
`initializeMatrix(1)`; `n <= MIN_SIZE_THRESHOLD` falls back to
`standardMultiply`; otherwise the four result quadrants are the fixed
recombination of the seven sub-products and are pasted by
`combineBlocks`. -/
def strassenMultiplyMPI (A B : Mat) (n : ℕ) (rank num_procs : ℕ) (level : ℤ) : Mat :=
  if _h1 : n = 1 then
    fun i j => if i = 0 ∧ j = 0 then A 0 0 * B 0 0 else 0
  else if _h64 : n ≤ MIN_SIZE_THRESHOLD then
    standardMultiply A B n
  else
    combineBlocks
      (addMatrices (subtractMatrices (addMatrices
        (productMPI A B n rank num_procs level 0)
        (productMPI A B n rank num_procs level 3))
        (productMPI A B n rank num_procs level 4))
        (productMPI A B n rank num_procs level 6))
      (addMatrices (productMPI A B n rank num_procs level 2)
        (productMPI A B n rank num_procs level 4))
      (addMatrices (productMPI A B n rank num_procs level 1)
        (productMPI A B n rank num_procs level 3))
      (addMatrices (addMatrices (subtractMatrices
        (productMPI A B n rank num_procs level 0)
        (productMPI A B n rank num_procs level 1))
        (productMPI A B n rank num_procs level 2))
        (productMPI A B n rank num_procs level 5))
      (n / 2)
termination_by 3 * n

/-- One sub-product `P[i]` of the decompose branch of
`strassenMultiplyMPI` (`strassen_mpi.c` lines 32-76).  When
`shouldDistribute` holds and the candidate child `rank*7 + (i+1)` exists,
the operands are flattened and sent whole (lines 43-50); the child worker
unflattens them, splits them into quadrants, runs
`computeStrassenProductMPI` at `level + 1` under its own rank
(`main.c` lines 137-165), and the flattened side-`n/2` reply is
unflattened by the parent (lines 62-64).  Otherwise the product is
computed locally at the parent's rank and level (lines 68 and 74). -/
def productMPI (A B : Mat) (n : ℕ) (rank num_procs : ℕ) (level : ℤ) (i : ℕ) : Mat :=
  if shouldDistribute (n : ℤ) level (num_procs : ℤ) (rank : ℤ) = true ∧
      rank * 7 + (i + 1) < num_procs then
    unflattenMatrix (flattenMatrix
      (computeStrassenProductMPI
        (quad11 (unflattenMatrix (flattenMatrix A n) n) (n / 2))
        (quad12 (unflattenMatrix (flattenMatrix A n) n) (n / 2))
        (quad21 (unflattenMatrix (flattenMatrix A n) n) (n / 2))
        (quad22 (unflattenMatrix (flattenMatrix A n) n) (n / 2))
        (quad11 (unflattenMatrix (flattenMatrix B n) n) (n / 2))
        (quad12 (unflattenMatrix (flattenMatrix B n) n) (n / 2))
        (quad21 (unflattenMatrix (flattenMatrix B n) n) (n / 2))
        (quad22 (unflattenMatrix (flattenMatrix B n) n) (n / 2))
        (n / 2) (rank * 7 + (i + 1)) num_procs (level + 1) i)
      (n / 2)) (n / 2)
  else
    computeStrassenProductMPI
      (quad11 A (n / 2)) (quad12 A (n / 2)) (quad21 A (n / 2)) (quad22 A (n / 2))
      (quad11 B (n / 2)) (quad12 B (n / 2)) (quad21 B (n / 2)) (quad22 B (n / 2))
      (n / 2) rank num_procs level i
termination_by 3 * (n / 2) + 2

/-- `computeStrassenProductMPI` from `strassen_mpi.c` lines 114-162:
builds the `switch`-selected operand pair and recurses into the kernel at
`level + 1`. -/
def computeStrassenProductMPI (A11 A12 A21 A22 B11 B12 B21 B22 : Mat)
    (k : ℕ) (rank num_procs : ℕ) (level : ℤ) (product_index : ℕ) : Mat :=
  strassenMultiplyMPI (tempAof A11 A12 A21 A22 product_index)
    (tempBof B11 B12 B21 B22 product_index) k rank num_procs (level + 1)
termination_by 3 * k + 1

end

/-- Sequential `strassenMultiply` from `matrix_utils.c` lines 119-221:
same base case and recombination, local fallback threshold `32`, and seven
direct recursive calls. -/
def strassenMultiply (A B : Mat) (n : ℕ) : Mat :=
  if _h1 : n = 1 then
    fun i j => if i = 0 ∧ j = 0 then A 0 0 * B 0 0 else 0
  else if _h32 : n ≤ 32 then
    standardMultiply A B n
  else
    let k := n / 2
    let P1 := strassenMultiply
      (addMatrices (quad11 A k) (quad22 A k)) (addMatrices (quad11 B k) (quad22 B k)) k
    let P2 := strassenMultiply
      (addMatrices (quad21 A k) (quad22 A k)) (quad11 B k) k
    let P3 := strassenMultiply
      (quad11 A k) (subtractMatrices (quad12 B k) (quad22 B k)) k
    let P4 := strassenMultiply
      (quad22 A k) (subtractMatrices (quad21 B k) (quad11 B k)) k
    let P5 := strassenMultiply
      (addMatrices (quad11 A k) (quad12 A k)) (quad22 B k) k
    let P6 := strassenMultiply
      (subtractMatrices (quad21 A k) (quad11 A k)) (addMatrices (quad11 B k) (quad12 B k)) k
    let P7 := strassenMultiply
      (subtractMatrices (quad12 A k) (quad22 A k)) (addMatrices (quad21 B k) (quad22 B k)) k
    combineBlocks
      (addMatrices (subtractMatrices (addMatrices P1 P4) P5) P7)
      (addMatrices P3 P5)
      (addMatrices P2 P4)
      (addMatrices (addMatrices (subtractMatrices P1 P2) P3) P6)
      k
termination_by n
decreasing_by all_goals omega

/-- The power-of-two side-length invariant carried by every kernel
invocation (spec section 3). -/
def Pow2 (n : ℕ) : Prop := ∃ m : ℕ, n = 2 ^ m

lemma pow2_half {n : ℕ} (h : Pow2 n) (h2 : 2 ≤ n) : n = 2 * (n / 2) ∧ Pow2 (n / 2) := by
  obtain ⟨m, rfl⟩ := h
  cases m with
  | zero => norm_num at h2
  | succ m =>
    rw [pow_succ, mul_comm]
    refine ⟨by omega, ⟨m, by omega⟩⟩

lemma unflatten_flatten (M : Mat) (n : ℕ) (hn : 0 < n) (x y : ℕ) (hy : y < n) :
    unflattenMatrix (flattenMatrix M n) n x y = M x y := by
  unfold unflattenMatrix flattenMatrix
  rw [mul_comm x n, Nat.mul_add_div hn, Nat.mul_add_mod, Nat.div_eq_of_lt hy,
    Nat.mod_eq_of_lt hy, Nat.add_zero]

lemma standardMultiply_add_left (X Y Z : Mat) (k i j : ℕ) :
    standardMultiply (addMatrices X Y) Z k i j =
      standardMultiply X Z k i j + standardMultiply Y Z k i j := by
  simp [standardMultiply, addMatrices, add_mul, Finset.sum_add_distrib]

lemma standardMultiply_sub_left (X Y Z : Mat) (k i j : ℕ) :
    standardMultiply (subtractMatrices X Y) Z k i j =
      standardMultiply X Z k i j - standardMultiply Y Z k i j := by
  simp [standardMultiply, subtractMatrices, sub_mul, Finset.sum_sub_distrib]

lemma standardMultiply_add_right (X Y Z : Mat) (k i j : ℕ) :
    standardMultiply X (addMatrices Y Z) k i j =
      standardMultiply X Y k i j + standardMultiply X Z k i j := by
  simp [standardMultiply, addMatrices, mul_add, Finset.sum_add_distrib]

lemma standardMultiply_sub_right (X Y Z : Mat) (k i j : ℕ) :
    standardMultiply X (subtractMatrices Y Z) k i j =
      standardMultiply X Y k i j - standardMultiply X Z k i j := by
  simp [standardMultiply, subtractMatrices, mul_sub, Finset.sum_sub_distrib]

lemma sum_range_double (f : ℕ → ℤ) (k : ℕ) :
    ∑ t in Finset.range (2 * k), f t =
      (∑ t in Finset.range k, f t) + ∑ t in Finset.range k, f (t + k) := by
  rw [two_mul, Finset.sum_range_add]
  simp [Nat.add_comm k]

lemma block_mul_11 (A B : Mat) (k i j : ℕ) :
    standardMultiply A B (2 * k) i j =
      standardMultiply (quad11 A k) (quad11 B k) k i j +
      standardMultiply (quad12 A k) (quad21 B k) k i j := by
  simp only [standardMultiply, quad11, quad12, quad21]
  exact sum_range_double (fun t => A i t * B t j) k

lemma block_mul_12 (A B : Mat) (k i j : ℕ) :
    standardMultiply A B (2 * k) i (j + k) =
      standardMultiply (quad11 A k) (quad12 B k) k i j +
      standardMultiply (quad12 A k) (quad22 B k) k i j := by
  simp only [standardMultiply, quad11, quad12, quad22]
  exact sum_range_double (fun t => A i t * B t (j + k)) k

lemma block_mul_21 (A B : Mat) (k i j : ℕ) :
    standardMultiply A B (2 * k) (i + k) j =
      standardMultiply (quad21 A k) (quad11 B k) k i j +
      standardMultiply (quad22 A k) (quad21 B k) k i j := by
  simp only [standardMultiply, quad11, quad21, quad22]
  exact sum_range_double (fun t => A (i + k) t * B t j) k

lemma block_mul_22 (A B : Mat) (k i j : ℕ) :
    standardMultiply A B (2 * k) (i + k) (j + k) =
      standardMultiply (quad21 A k) (quad12 B k) k i j +
      standardMultiply (quad22 A k) (quad22 B k) k i j := by
  simp only [standardMultiply, quad12, quad21, quad22]
  exact sum_range_double (fun t => A (i + k) t * B t (j + k)) k

lemma standardMultiply_congr (X X' Y Y' : Mat) (k i j : ℕ)
    (hX : ∀ t, t < k → X i t = X' i t) (hY : ∀ t, t < k → Y t j = Y' t j) :
    standardMultiply X Y k i j = standardMultiply X' Y' k i j := by
  unfold standardMultiply
  exact Finset.sum_congr rfl fun t ht => by
    rw [hX t (Finset.mem_range.mp ht), hY t (Finset.mem_range.mp ht)]

/-- Central recombination fact: if the seven side-`k` matrices `P0..P6`
agree, on meaningful entries, with the true products of the fixed Strassen
operand pairs built from the quadrants of `A` and `B`, then the
recombined `combineBlocks` matrix agrees with the cubic product of `A`
and `B` at side `2k`. -/
lemma strassen_step (A B : Mat) (k : ℕ) (P0 P1 P2 P3 P4 P5 P6 : Mat)
    (h0 : ∀ i j, i < k → j < k → P0 i j =
      standardMultiply (addMatrices (quad11 A k) (quad22 A k))
        (addMatrices (quad11 B k) (quad22 B k)) k i j)
    (h1 : ∀ i j, i < k → j < k → P1 i j =
      standardMultiply (addMatrices (quad21 A k) (quad22 A k)) (quad11 B k) k i j)
    (h2 : ∀ i j, i < k → j < k → P2 i j =
      standardMultiply (quad11 A k)
        (subtractMatrices (quad12 B k) (quad22 B k)) k i j)
    (h3 : ∀ i j, i < k → j < k → P3 i j =
      standardMultiply (quad22 A k)
        (subtractMatrices (quad21 B k) (quad11 B k)) k i j)
    (h4 : ∀ i j, i < k → j < k → P4 i j =
      standardMultiply (addMatrices (quad11 A k) (quad12 A k)) (quad22 B k) k i j)
    (h5 : ∀ i j, i < k → j < k → P5 i j =
      standardMultiply (subtractMatrices (quad21 A k) (quad11 A k))
        (addMatrices (quad11 B k) (quad12 B k)) k i j)
    (h6 : ∀ i j, i < k → j < k → P6 i j =
      standardMultiply (subtractMatrices (quad12 A k) (quad22 A k))
        (addMatrices (quad21 B k) (quad22 B k)) k i j)
    (i j : ℕ) (hi : i < 2 * k) (hj : j < 2 * k) :
    combineBlocks
      (addMatrices (subtractMatrices (addMatrices P0 P3) P4) P6)
      (addMatrices P2 P4)
      (addMatrices P1 P3)
      (addMatrices (addMatrices (subtractMatrices P0 P1) P2) P5)
      k i j = standardMultiply A B (2 * k) i j := by
  unfold combineBlocks
  by_cases hik : i < k
  · by_cases hjk : j < k
    · rw [if_pos hik, if_pos hjk]
      simp only [addMatrices, subtractMatrices]
      rw [h0 i j hik hjk, h3 i j hik hjk, h4 i j hik hjk, h6 i j hik hjk,
        block_mul_11]
      simp only [standardMultiply_add_left, standardMultiply_add_right,
        standardMultiply_sub_left, standardMultiply_sub_right]
      ring
    · obtain ⟨j', rfl⟩ : ∃ j', j = j' + k := ⟨j - k, by omega⟩
      have hj' : j' < k := by omega
      rw [if_pos hik, if_neg hjk, Nat.add_sub_cancel]
      simp only [addMatrices]
      rw [h2 i j' hik hj', h4 i j' hik hj', block_mul_12]
      simp only [standardMultiply_add_left, standardMultiply_add_right,
        standardMultiply_sub_left, standardMultiply_sub_right]
      ring
  · obtain ⟨i', rfl⟩ : ∃ i', i = i' + k := ⟨i - k, by omega⟩
    have hi' : i' < k := by omega
    by_cases hjk : j < k
    · rw [if_neg hik, if_pos hjk, Nat.add_sub_cancel]
      simp only [addMatrices]
      rw [h1 i' j hi' hjk, h3 i' j hi' hjk, block_mul_21]
      simp only [standardMultiply_add_left, standardMultiply_add_right,
        standardMultiply_sub_left, standardMultiply_sub_right]
      ring
    · obtain ⟨j', rfl⟩ : ∃ j', j = j' + k := ⟨j - k, by omega⟩
      have hj' : j' < k := by omega
      rw [if_neg hik, if_neg hjk, Nat.add_sub_cancel, Nat.add_sub_cancel]
      simp only [addMatrices, subtractMatrices]
      rw [h0 i' j' hi' hj', h1 i' j' hi' hj', h2 i' j' hi' hj', h5 i' j' hi' hj',
        block_mul_22]
      simp only [standardMultiply_add_left, standardMultiply_add_right,
        standardMultiply_sub_left, standardMultiply_sub_right]
      ring

lemma tempAof_congr (A A' : Mat) (k : ℕ)
    (h : ∀ x y, y < 2 * k → A x y = A' x y) (m i t : ℕ) (ht : t < k) :
    tempAof (quad11 A k) (quad12 A k) (quad21 A k) (quad22 A k) m i t =
      tempAof (quad11 A' k) (quad12 A' k) (quad21 A' k) (quad22 A' k) m i t := by
  rcases m with _ | _ | _ | _ | _ | _ | _ | m <;>
    simp only [tempAof, addMatrices, subtractMatrices, quad11, quad12, quad21, quad22] <;>
    try rw [h _ _ (by omega)]
  all_goals try rw [h _ _ (by omega)]

lemma tempBof_congr (B B' : Mat) (k : ℕ)
    (h : ∀ x y, y < 2 * k → B x y = B' x y) (m t j : ℕ) (hj : j < k) :
    tempBof (quad11 B k) (quad12 B k) (quad21 B k) (quad22 B k) m t j =
      tempBof (quad11 B' k) (quad12 B' k) (quad21 B' k) (quad22 B' k) m t j := by
  rcases m with _ | _ | _ | _ | _ | _ | _ | m <;>
    simp only [tempBof, addMatrices, subtractMatrices, quad11, quad12, quad21, quad22] <;>
    try rw [h _ _ (by omega)]
  all_goals try rw [h _ _ (by omega)]

/-- Main functional-correctness induction: for every power-of-two side,
every rank, process count and level, the MPI kernel agrees elementwise
with the cubic reference product. -/
theorem strassenMultiplyMPI_eq_standard :
    ∀ n : ℕ, Pow2 n → ∀ (A B : Mat) (rank num_procs : ℕ) (level : ℤ) (i j : ℕ),
      i < n → j < n →
      strassenMultiplyMPI A B n rank num_procs level i j = standardMultiply A B n i j := by
  intro n
  induction n using Nat.strong_induction_on with
  | _ n IH =>
    intro hpow A B rank P level i j hi hj
    by_cases h1 : n = 1
    · subst h1
      rw [strassenMultiplyMPI, dif_pos rfl]
      interval_cases i
      interval_cases j
      simp [standardMultiply]
    · by_cases h64 : n ≤ MIN_SIZE_THRESHOLD
      · rw [strassenMultiplyMPI, dif_neg h1, dif_pos h64]
      · have hn2 : 2 ≤ n := by
          have : ¬ n ≤ 64 := by simpa [MIN_SIZE_THRESHOLD] using h64
          omega
        obtain ⟨hsplit, hpk⟩ := pow2_half hpow hn2
        have hk0 : 0 < n / 2 := by omega
        have hkn : n / 2 < n := by omega
        have hP : ∀ m i j, i < n / 2 → j < n / 2 →
            productMPI A B n rank P level m i j =
            standardMultiply
              (tempAof (quad11 A (n / 2)) (quad12 A (n / 2))
                (quad21 A (n / 2)) (quad22 A (n / 2)) m)
              (tempBof (quad11 B (n / 2)) (quad12 B (n / 2))
                (quad21 B (n / 2)) (quad22 B (n / 2)) m) (n / 2) i j := by
          intro m i j hi hj
          rw [productMPI]
          split_ifs with hdist
          · rw [unflatten_flatten _ _ hk0 _ _ hj, computeStrassenProductMPI]
            refine (IH (n / 2) hkn hpk _ _ _ _ _ i j hi hj).trans
              (standardMultiply_congr _ _ _ _ (n / 2) i j ?_ ?_)
            · intro t ht
              exact tempAof_congr _ A (n / 2)
                (fun x y hy => unflatten_flatten A n (by omega) x y (by omega)) m i t ht
            · intro t ht
              exact tempBof_congr _ B (n / 2)
                (fun x y hy => unflatten_flatten B n (by omega) x y (by omega)) m t j hj
          · rw [computeStrassenProductMPI]
            exact IH (n / 2) hkn hpk _ _ _ _ _ i j hi hj
        rw [strassenMultiplyMPI, dif_neg h1, dif_neg h64]
        have hstep := strassen_step A B (n / 2)
          (productMPI A B n rank P level 0) (productMPI A B n rank P level 1)
          (productMPI A B n rank P level 2) (productMPI A B n rank P level 3)
          (productMPI A B n rank P level 4) (productMPI A B n rank P level 5)
          (productMPI A B n rank P level 6)
          (hP 0) (hP 1) (hP 2) (hP 3) (hP 4) (hP 5) (hP 6)
          i j (by omega) (by omega)
        rw [hstep, ← hsplit]

/-- The sequential reference `strassenMultiply` also agrees elementwise
with the cubic product on every power-of-two side. -/
theorem strassenMultiply_eq_standard :
    ∀ n : ℕ, Pow2 n → ∀ (A B : Mat) (i j : ℕ), i < n → j < n →
      strassenMultiply A B n i j = standardMultiply A B n i j := by
  intro n
  induction n using Nat.strong_induction_on with
  | _ n IH =>
    intro hpow A B i j hi hj
    by_cases h1 : n = 1
    · subst h1
      rw [strassenMultiply, dif_pos rfl]
      interval_cases i
      interval_cases j
      simp [standardMultiply]
    · by_cases h32 : n ≤ 32
      · rw [strassenMultiply, dif_neg h1, dif_pos h32]
      · have hn2 : 2 ≤ n := by omega
        obtain ⟨hsplit, hpk⟩ := pow2_half hpow hn2
        have hkn : n / 2 < n := by omega
        rw [strassenMultiply, dif_neg h1, dif_neg h32]
        have hstep := strassen_step A B (n / 2) _ _ _ _ _ _ _
          (fun i j hi hj => IH (n / 2) hkn hpk _ _ i j hi hj)
          (fun i j hi hj => IH (n / 2) hkn hpk _ _ i j hi hj)
          (fun i j hi hj => IH (n / 2) hkn hpk _ _ i j hi hj)
          (fun i j hi hj => IH (n / 2) hkn hpk _ _ i j hi hj)
          (fun i j hi hj => IH (n / 2) hkn hpk _ _ i j hi hj)
          (fun i j hi hj => IH (n / 2) hkn hpk _ _ i j hi hj)
          (fun i j hi hj => IH (n / 2) hkn hpk _ _ i j hi hj)
          i j (by omega) (by omega)
        rw [hstep, ← hsplit]

/-- Left operand of the `m`-th Strassen product as the spec's table in
section 4.2 lists it (a second, spec-side definition, to compare the code
against). -/
def specLeftOperand (A : Mat) (k : ℕ) : ℕ → Mat
  | 0 => addMatrices (quad11 A k) (quad22 A k)
  | 1 => addMatrices (quad21 A k) (quad22 A k)
  | 2 => quad11 A k
  | 3 => quad22 A k
  | 4 => addMatrices (quad11 A k) (quad12 A k)
  | 5 => subtractMatrices (quad21 A k) (quad11 A k)
  | 6 => subtractMatrices (quad12 A k) (quad22 A k)
  | _ => fun _ _ => 0

/-- Right operand of the `m`-th Strassen product per the same table. -/
def specRightOperand (B : Mat) (k : ℕ) : ℕ → Mat
  | 0 => addMatrices (quad11 B k) (quad22 B k)
  | 1 => quad11 B k
  | 2 => subtractMatrices (quad12 B k) (quad22 B k)
  | 3 => subtractMatrices (quad21 B k) (quad11 B k)
  | 4 => quad22 B k
  | 5 => addMatrices (quad11 B k) (quad12 B k)
  | 6 => addMatrices (quad21 B k) (quad22 B k)
  | _ => fun _ _ => 0

/-- The `m`-th Strassen product as the spec describes it: the true (cubic)
matrix product of the fixed operand pair built from the quadrants of `A`
and `B`. -/
def specStrassenProduct (A B : Mat) (k m : ℕ) : Mat :=
  standardMultiply (specLeftOperand A k m) (specRightOperand B k m) k

/-- Observer of the seven immediate sub-invocations of the kernel made by
one `strassenMultiplyMPI` call: for each product slot, whether it is
offloaded and the `level` argument the callee kernel receives.  Read off
the source: in the base and fallback branches there is no sub-invocation;
a local slot runs `computeStrassenProductMPI(..., level, i)`
(`strassen_mpi.c` lines 68 and 74) whose kernel call is at `level + 1`
(line 156); an offloaded slot sends `level` (line 48), the worker runs
`computeStrassenProductMPI(..., level + 1, ...)` (`main.c` line 165), so
the child's kernel call is at `level + 1 + 1`. -/
def subcallLevels (n : ℕ) (rank num_procs : ℕ) (level : ℤ) : List (Bool × ℤ) :=
  if n = 1 then []
  else if n ≤ MIN_SIZE_THRESHOLD then []
  else (List.range 7).map fun i =>
    if shouldDistribute (n : ℤ) level (num_procs : ℤ) (rank : ℤ) = true ∧
        rank * 7 + (i + 1) < num_procs then
      (true, level + 1 + 1)
    else
      (false, level + 1)

/-- One unit of offloaded work as carried by the wire protocol
(spec section 6; `main.c` lines 123-141): the size, then the product
index, then the level, then the two flattened operands, all from the same
sender. -/
structure TaskMsg where
  sender : ℕ
  n : ℕ
  product_index : ℕ
  level : ℤ
  flatA : ℕ → ℤ
  flatB : ℕ → ℤ

/-- One iteration of `workerProcess` (`main.c` lines 130-169) on a
received task: unflatten both operands, split them into quadrants, run
`computeStrassenProductMPI` at `level + 1` under this worker's own rank,
and reply to the original sender with the flattened side-`n/2` result.
The triple is (destination rank, reply side, flattened payload). -/
def workerHandleTask (rank num_procs : ℕ) (t : TaskMsg) : ℕ × ℕ × (ℕ → ℤ) :=
  (t.sender, t.n / 2,
    flattenMatrix
      (computeStrassenProductMPI
        (quad11 (unflattenMatrix t.flatA t.n) (t.n / 2))
        (quad12 (unflattenMatrix t.flatA t.n) (t.n / 2))
        (quad21 (unflattenMatrix t.flatA t.n) (t.n / 2))
        (quad22 (unflattenMatrix t.flatA t.n) (t.n / 2))
        (quad11 (unflattenMatrix t.flatB t.n) (t.n / 2))
        (quad12 (unflattenMatrix t.flatB t.n) (t.n / 2))
        (quad21 (unflattenMatrix t.flatB t.n) (t.n / 2))
        (quad22 (unflattenMatrix t.flatB t.n) (t.n / 2))
        (t.n / 2) rank num_procs (t.level + 1) t.product_index)
      (t.n / 2))

/-- The dispatch loop of `workerProcess` (`main.c` lines 118-177) over the
stream of tasks addressed to this worker: a task with size `0` is the
shutdown sentinel and terminates the loop with no reply; any other task
produces exactly one reply and the loop continues. -/
def workerLoop (rank num_procs : ℕ) : List TaskMsg → List (ℕ × ℕ × (ℕ → ℤ))
  | [] => []
  | t :: rest =>
    if t.n = 0 then []
    else workerHandleTask rank num_procs t :: workerLoop rank num_procs rest

/-- The coordinator's shutdown phase (`main.c` lines 104-107): after the
top-level result returns, send the value `0` to every rank
`1 .. num_procs - 1`, in order.  Pairs are (destination, payload). -/
def shutdownSends (num_procs : ℕ) : List (ℕ × ℤ) :=
  (List.range' 1 (num_procs - 1)).map fun i => (i, 0)

/-- The child-identity mapping of the implicit 7-ary process tree:
slot `s` of rank `r` is process `r * 7 + (s + 1)` (`strassen_mpi.c`
lines 38 and 178). -/
def childId (rank slot : ℕ) : ℕ := rank * 7 + (slot + 1)

/-- Identities reachable from root 0 by one or more child steps in which
every visited child identity is a valid process (below `num_procs`). -/
inductive ReachableWorker (num_procs : ℕ) : ℕ → Prop where
  | root : ∀ s, s < 7 → childId 0 s < num_procs →
      ReachableWorker num_procs (childId 0 s)
  | step : ∀ r s, ReachableWorker num_procs r → s < 7 →
      childId r s < num_procs → ReachableWorker num_procs (childId r s)

/-- Outcome of the command-line size check in `main` (`main.c` lines
18-28).  `configError` means every process (the check precedes the
coordinator/worker split) prints the usage error on rank 0, calls
`MPI_Finalize` and returns, before any `MPI_Send` or `MPI_Recv`; no Task
or shutdown message is exchanged in such a run. -/
inductive MainPhase where
  | configError : MainPhase
  | protocolRun : ℤ → MainPhase
deriving DecidableEq

/-- The guard `if (!isPowerOfTwo(n) || n < 2)` of `main.c` line 20 applied
to the size parsed from the command line. -/
def mainPhase (argn : ℤ) : MainPhase :=
  if !(isPowerOfTwo argn) || decide (argn < 2) then MainPhase.configError
  else MainPhase.protocolRun argn

lemma flattenMatrix_entry (M : Mat) (k : ℕ) (hk : 0 < k) (i j : ℕ) (hj : j < k) :
    flattenMatrix M k (i * k + j) = M i j :=
  unflatten_flatten M k hk i j hj

lemma reachableWorker_of_bounds (num_procs : ℕ) :
    ∀ m : ℕ, 1 ≤ m → m < num_procs → ReachableWorker num_procs m := by
  intro m
  induction m using Nat.strong_induction_on with
  | _ m IH =>
    intro h1 hP
    have key : childId ((m - 1) / 7) ((m - 1) % 7) = m := by unfold childId; omega
    have hs7 : (m - 1) % 7 < 7 := by omega
    by_cases hr0 : (m - 1) / 7 = 0
    · have key0 : childId 0 ((m - 1) % 7) = m := by rw [← hr0]; exact key
      rw [← key0]
      exact ReachableWorker.root _ hs7 (by rw [key0]; exact hP)
    · have hrm : (m - 1) / 7 < m := by omega
      have hrec : ReachableWorker num_procs ((m - 1) / 7) :=
        IH _ hrm (by omega) (by omega)
      rw [← key]
      exact ReachableWorker.step _ _ hrec hs7 (by rw [key]; exact hP)

/-- C1: for every power-of-two side `n ≥ 2`, every process count `≥ 1`,
and all integer operand matrices, the top-level kernel invocation
`strassenMultiplyMPI(A, B, n, 0, P, 0)` agrees elementwise with the cubic
reference product. -/
theorem claim_C1_top_level_matches_reference (A B : Mat) (n num_procs : ℕ)
    (hpow : Pow2 n) (_hn : 2 ≤ n) (_hP : 1 ≤ num_procs)
    (i j : ℕ) (hi : i < n) (hj : j < n) :
    strassenMultiplyMPI A B n 0 num_procs 0 i j = standardMultiply A B n i j :=
  strassenMultiplyMPI_eq_standard n hpow A B 0 num_procs 0 i j hi hj

theorem claim_C1_witness :
    (Pow2 2 ∧ 2 ≤ 2 ∧ 1 ≤ 1) ∧
    strassenMultiplyMPI (fun i j => (i * 2 + j + 1 : ℤ)) (fun i j => (i * 2 + j + 5 : ℤ))
        2 0 1 0 0 0 =
      standardMultiply (fun i j => (i * 2 + j + 1 : ℤ)) (fun i j => (i * 2 + j + 5 : ℤ)) 2 0 0 :=
  ⟨⟨⟨1, rfl⟩, by decide, by decide⟩,
    claim_C1_top_level_matches_reference _ _ 2 1 ⟨1, rfl⟩ (by decide) (by decide)
      0 0 (by decide) (by decide)⟩

/-- C3: `shouldDistribute(n, level, P, r)` is true exactly when
`n > MIN_SIZE_THRESHOLD`, `level < MAX_TREE_HEIGHT` and `r*7 + 1 < P`,
for all `int` (here `ℤ`) arguments. -/
theorem claim_C3_shouldDistribute_iff (n level num_procs rank : ℤ) :
    shouldDistribute n level num_procs rank = true ↔
      ((MIN_SIZE_THRESHOLD : ℤ) < n ∧ level < (MAX_TREE_HEIGHT : ℤ) ∧
        rank * 7 + 1 < num_procs) := by
  unfold shouldDistribute
  split_ifs with h1 h2 h3 <;> simp <;> omega

/-- C5: for every `1 ≤ n ≤ MIN_SIZE_THRESHOLD` (the threshold included)
and every rank, process count and level, the kernel returns exactly the
cubic multiply of its inputs, the distribution predicate is false and the
kernel makes no sub-invocation at all. -/
theorem claim_C5_at_or_below_threshold (A B : Mat) (n rank num_procs : ℕ) (level : ℤ)
    (hn1 : 1 ≤ n) (hn64 : n ≤ MIN_SIZE_THRESHOLD) :
    (∀ i j, i < n → j < n →
      strassenMultiplyMPI A B n rank num_procs level i j = standardMultiply A B n i j) ∧
    shouldDistribute (n : ℤ) level (num_procs : ℤ) (rank : ℤ) = false ∧
    subcallLevels n rank num_procs level = [] := by
  refine ⟨?_, ?_, ?_⟩
  · intro i j hi hj
    by_cases h1 : n = 1
    · subst h1
      rw [strassenMultiplyMPI, dif_pos rfl]
      interval_cases i
      interval_cases j
      simp [standardMultiply]
    · rw [strassenMultiplyMPI, dif_neg h1, dif_pos hn64]
  · unfold shouldDistribute
    rw [if_pos (by exact_mod_cast hn64)]
  · unfold subcallLevels
    by_cases h1 : n = 1
    · rw [if_pos h1]
    · rw [if_neg h1, if_pos hn64]

theorem claim_C5_witness :
    (1 ≤ 64 ∧ 64 ≤ MIN_SIZE_THRESHOLD) ∧
    strassenMultiplyMPI (fun _ _ => (1 : ℤ)) (fun _ _ => (1 : ℤ)) 64 0 8 0 0 0 =
      standardMultiply (fun _ _ => (1 : ℤ)) (fun _ _ => (1 : ℤ)) 64 0 0 ∧
    shouldDistribute ((64 : ℕ) : ℤ) 0 ((8 : ℕ) : ℤ) ((0 : ℕ) : ℤ) = false ∧
    subcallLevels 64 0 8 0 = [] :=
  ⟨⟨by decide, by decide⟩,
    (claim_C5_at_or_below_threshold (fun _ _ => 1) (fun _ _ => 1) 64 0 8 0
      (by decide) (by decide)).1 0 0 (by decide) (by decide),
    (claim_C5_at_or_below_threshold (fun _ _ => 1) (fun _ _ => 1) 64 0 8 0
      (by decide) (by decide)).2.1,
    (claim_C5_at_or_below_threshold (fun _ _ => 1) (fun _ _ => 1) 64 0 8 0
      (by decide) (by decide)).2.2⟩

/-- C9: a command-line size that is not a power of two or is below 2 makes
`main` take the error path, in which every process finishes before any
protocol message is sent or received. -/
theorem claim_C9_config_error (argn : ℤ)
    (h : isPowerOfTwo argn = false ∨ argn < 2) :
    mainPhase argn = MainPhase.configError := by
  have hc : (!(isPowerOfTwo argn) || decide (argn < 2)) = true := by
    rcases h with h | h <;> simp [h]
  rw [mainPhase, if_pos hc]

theorem claim_C9_witness :
    (isPowerOfTwo 3 = false ∨ (3 : ℤ) < 2) ∧ mainPhase 3 = MainPhase.configError :=
  ⟨Or.inl (by decide), claim_C9_config_error 3 (Or.inl (by decide))⟩

/-- C10: the sequential cross-check `strassenMultiply`, with its own
fallback threshold of 32, agrees elementwise with `standardMultiply` on
every power-of-two side `n ≥ 1`. -/
theorem claim_C10_sequential_reference_agrees (A B : Mat) (n : ℕ)
    (hpow : Pow2 n) (_hn : 1 ≤ n) (i j : ℕ) (hi : i < n) (hj : j < n) :
    strassenMultiply A B n i j = standardMultiply A B n i j :=
  strassenMultiply_eq_standard n hpow A B i j hi hj

theorem claim_C10_witness :
    (Pow2 4 ∧ 1 ≤ 4) ∧
    strassenMultiply (fun i j => (i + 2 * j : ℤ)) (fun i j => (i * j : ℤ)) 4 1 2 =
      standardMultiply (fun i j => (i + 2 * j : ℤ)) (fun i j => (i * j : ℤ)) 4 1 2 :=
  ⟨⟨⟨2, rfl⟩, by decide⟩,
    claim_C10_sequential_reference_agrees _ _ 4 ⟨2, rfl⟩ (by decide)
      1 2 (by decide) (by decide)⟩

/-- C2: on a power-of-two side above `MIN_SIZE_THRESHOLD`, the kernel
returns the matrix whose quadrants are the fixed recombination
`C11 = P0 + P3 - P4 + P6`, `C12 = P2 + P4`, `C21 = P1 + P3`,
`C22 = P0 - P1 + P2 + P5` of the seven true Strassen products of the
operand quadrants. -/
theorem claim_C2_decompose_recombination (A B : Mat) (n rank num_procs : ℕ) (level : ℤ)
    (hpow : Pow2 n) (h64 : MIN_SIZE_THRESHOLD < n) (i j : ℕ) (hi : i < n) (hj : j < n) :
    strassenMultiplyMPI A B n rank num_procs level i j =
    combineBlocks
      (addMatrices (subtractMatrices (addMatrices
        (specStrassenProduct A B (n / 2) 0) (specStrassenProduct A B (n / 2) 3))
        (specStrassenProduct A B (n / 2) 4)) (specStrassenProduct A B (n / 2) 6))
      (addMatrices (specStrassenProduct A B (n / 2) 2) (specStrassenProduct A B (n / 2) 4))
      (addMatrices (specStrassenProduct A B (n / 2) 1) (specStrassenProduct A B (n / 2) 3))
      (addMatrices (addMatrices (subtractMatrices
        (specStrassenProduct A B (n / 2) 0) (specStrassenProduct A B (n / 2) 1))
        (specStrassenProduct A B (n / 2) 2)) (specStrassenProduct A B (n / 2) 5))
      (n / 2) i j := by
  have hn2 : 2 ≤ n := by
    have : (64 : ℕ) < n := by simpa [MIN_SIZE_THRESHOLD] using h64
    omega
  obtain ⟨hsplit, hpk⟩ := pow2_half hpow hn2
  have hstep := strassen_step A B (n / 2)
    (specStrassenProduct A B (n / 2) 0) (specStrassenProduct A B (n / 2) 1)
    (specStrassenProduct A B (n / 2) 2) (specStrassenProduct A B (n / 2) 3)
    (specStrassenProduct A B (n / 2) 4) (specStrassenProduct A B (n / 2) 5)
    (specStrassenProduct A B (n / 2) 6)
    (fun _ _ _ _ => rfl) (fun _ _ _ _ => rfl) (fun _ _ _ _ => rfl)
    (fun _ _ _ _ => rfl) (fun _ _ _ _ => rfl) (fun _ _ _ _ => rfl)
    (fun _ _ _ _ => rfl)
    i j (by omega) (by omega)
  rw [← hsplit] at hstep
  rw [strassenMultiplyMPI_eq_standard n hpow A B rank num_procs level i j hi hj, ← hstep]

theorem claim_C2_witness :
    (Pow2 128 ∧ MIN_SIZE_THRESHOLD < 128) ∧
    strassenMultiplyMPI (fun _ _ => (1 : ℤ)) (fun _ _ => (2 : ℤ)) 128 0 1 0 3 5 =
    combineBlocks
      (addMatrices (subtractMatrices (addMatrices
        (specStrassenProduct (fun _ _ => (1 : ℤ)) (fun _ _ => (2 : ℤ)) 64 0)
        (specStrassenProduct (fun _ _ => (1 : ℤ)) (fun _ _ => (2 : ℤ)) 64 3))
        (specStrassenProduct (fun _ _ => (1 : ℤ)) (fun _ _ => (2 : ℤ)) 64 4))
        (specStrassenProduct (fun _ _ => (1 : ℤ)) (fun _ _ => (2 : ℤ)) 64 6))
      (addMatrices (specStrassenProduct (fun _ _ => (1 : ℤ)) (fun _ _ => (2 : ℤ)) 64 2)
        (specStrassenProduct (fun _ _ => (1 : ℤ)) (fun _ _ => (2 : ℤ)) 64 4))
      (addMatrices (specStrassenProduct (fun _ _ => (1 : ℤ)) (fun _ _ => (2 : ℤ)) 64 1)
        (specStrassenProduct (fun _ _ => (1 : ℤ)) (fun _ _ => (2 : ℤ)) 64 3))
      (addMatrices (addMatrices (subtractMatrices
        (specStrassenProduct (fun _ _ => (1 : ℤ)) (fun _ _ => (2 : ℤ)) 64 0)
        (specStrassenProduct (fun _ _ => (1 : ℤ)) (fun _ _ => (2 : ℤ)) 64 1))
        (specStrassenProduct (fun _ _ => (1 : ℤ)) (fun _ _ => (2 : ℤ)) 64 2))
        (specStrassenProduct (fun _ _ => (1 : ℤ)) (fun _ _ => (2 : ℤ)) 64 5))
      64 3 5 :=
  ⟨⟨⟨7, rfl⟩, by decide⟩,
    claim_C2_decompose_recombination _ _ 128 0 1 0 ⟨7, rfl⟩ (by decide)
      3 5 (by decide) (by decide)⟩

/-- C4 as stated is false on the code: at `n = 128`, `rank = 0`,
`num_procs = 1`, `level = 0`, every one of the seven sub-products is
computed locally (no child exists), yet each local callee kernel is
invoked at level `1`, not at the caller's level `0`. -/
theorem claim_C4_counterexample :
    (false, (1 : ℤ)) ∈ subcallLevels 128 0 1 0 ∧ (1 : ℤ) ≠ 0 := by
  constructor
  · decide
  · decide

/-- C4 amended: the level counter increases on every recursive kernel
invocation, local or not — a locally computed sub-product invokes the
callee kernel at the caller's level plus one, and an offloaded one reaches
the child's kernel at the caller's level plus two. -/
theorem claim_C4_amended_level_increment (n rank num_procs : ℕ) (level : ℤ)
    (b : Bool) (v : ℤ) (h : (b, v) ∈ subcallLevels n rank num_procs level) :
    v = level + (if b then 2 else 1) := by
  unfold subcallLevels at h
  split_ifs at h with h1 h2
  · simp at h
  · simp at h
  · simp only [List.mem_map, List.mem_range] at h
    obtain ⟨m, _, heq⟩ := h
    by_cases hc : shouldDistribute (n : ℤ) level (num_procs : ℤ) (rank : ℤ) = true ∧
        rank * 7 + (m + 1) < num_procs
    · rw [if_pos hc] at heq
      cases heq
      simp
      ring
    · rw [if_neg hc] at heq
      cases heq
      simp

theorem claim_C4_witness :
    (true, (2 : ℤ)) ∈ subcallLevels 128 0 50 0 ∧
      (2 : ℤ) = 0 + (if true then 2 else 1) :=
  ⟨by decide, claim_C4_amended_level_increment 128 0 50 0 true 2 (by decide)⟩

/-- C6: a worker that receives a task of power-of-two size `n` with a
valid product index replies to the original sender with one flattened
matrix of side `n / 2` whose entries are the requested Strassen product of
the received (unflattened) operands. -/
theorem claim_C6_worker_reply (rank num_procs : ℕ) (t : TaskMsg)
    (hpow : Pow2 t.n) (hidx : t.product_index < 7) :
    (workerHandleTask rank num_procs t).1 = t.sender ∧
    (workerHandleTask rank num_procs t).2.1 = t.n / 2 ∧
    ∀ i j, i < t.n / 2 → j < t.n / 2 →
      (workerHandleTask rank num_procs t).2.2 (i * (t.n / 2) + j) =
        specStrassenProduct (unflattenMatrix t.flatA t.n) (unflattenMatrix t.flatB t.n)
          (t.n / 2) t.product_index i j := by
  refine ⟨rfl, rfl, ?_⟩
  intro i j hi hj
  have hk0 : 0 < t.n / 2 := by omega
  have hn2 : 2 ≤ t.n := by omega
  obtain ⟨hsplit, hpk⟩ := pow2_half hpow hn2
  unfold workerHandleTask
  dsimp only
  rw [flattenMatrix_entry _ _ hk0 i j hj, computeStrassenProductMPI,
    strassenMultiplyMPI_eq_standard (t.n / 2) hpk _ _ rank num_procs (t.level + 1 + 1)
      i j hi hj]
  set m := t.product_index with hm
  interval_cases m <;> rfl

theorem claim_C6_witness :
    (Pow2 2 ∧ 0 < 7) ∧
    (workerHandleTask 3 4 ⟨0, 2, 0, 0, fun _ => 1, fun _ => 1⟩).1 = 0 ∧
    (workerHandleTask 3 4 ⟨0, 2, 0, 0, fun _ => 1, fun _ => 1⟩).2.1 = 1 ∧
    (workerHandleTask 3 4 ⟨0, 2, 0, 0, fun _ => 1, fun _ => 1⟩).2.2 (0 * 1 + 0) =
      specStrassenProduct (unflattenMatrix (fun _ => 1) 2) (unflattenMatrix (fun _ => 1) 2)
        1 0 0 0 :=
  ⟨⟨⟨1, rfl⟩, by decide⟩,
    (claim_C6_worker_reply 3 4 ⟨0, 2, 0, 0, fun _ => 1, fun _ => 1⟩ ⟨1, rfl⟩ (by decide)).1,
    (claim_C6_worker_reply 3 4 ⟨0, 2, 0, 0, fun _ => 1, fun _ => 1⟩ ⟨1, rfl⟩ (by decide)).2.1,
    (claim_C6_worker_reply 3 4 ⟨0, 2, 0, 0, fun _ => 1, fun _ => 1⟩ ⟨1, rfl⟩ (by decide)).2.2
      0 0 (by decide) (by decide)⟩

/-- C7: after the top-level result, the coordinator sends the size-0
shutdown sentinel exactly once to each process identity `1 .. P-1` (the
send list mentions exactly those destinations, each once, always with
payload 0), and a worker whose next task has size 0 exits its dispatch
loop with no reply and no further processing. -/
theorem claim_C7_shutdown_protocol (num_procs : ℕ) :
    (∀ r v, (r, v) ∈ shutdownSends num_procs ↔ (1 ≤ r ∧ r < num_procs ∧ v = 0)) ∧
    (shutdownSends num_procs).Nodup ∧
    (∀ rank np (t : TaskMsg) rest, t.n = 0 → workerLoop rank np (t :: rest) = []) := by
  refine ⟨?_, ?_, ?_⟩
  · intro r v
    unfold shutdownSends
    simp only [List.mem_map, List.mem_range'_1]
    constructor
    · rintro ⟨x, hx, heq⟩
      cases heq
      exact ⟨by omega, by omega, rfl⟩
    · rintro ⟨h1, h2, rfl⟩
      exact ⟨r, ⟨by omega, by omega⟩, rfl⟩
  · refine List.Nodup.map ?_ (List.nodup_range' 1 (num_procs - 1))
    intro a b hab
    simpa using hab
  · intro rank np t rest ht
    rw [workerLoop, if_pos ht]

theorem claim_C7_witness :
    ((2, (0 : ℤ)) ∈ shutdownSends 5 ↔ (1 ≤ 2 ∧ 2 < 5 ∧ (0 : ℤ) = 0)) ∧
    workerLoop 1 5 [⟨0, 0, 0, 0, fun _ => 0, fun _ => 0⟩] = [] :=
  ⟨(claim_C7_shutdown_protocol 5).1 2 0,
    (claim_C7_shutdown_protocol 5).2.2 1 5 ⟨0, 0, 0, 0, fun _ => 0, fun _ => 0⟩ [] rfl⟩

/-- C8: the child mapping is injective per parent, the identities
reachable from root 0 through valid children are exactly `1 .. P-1`, and
every positive identity arises from exactly one (parent, slot) pair. -/
theorem claim_C8_process_tree (num_procs : ℕ) :
    (∀ r s s' : ℕ, s < 7 → s' < 7 → childId r s = childId r s' → s = s') ∧
    (∀ m : ℕ, ReachableWorker num_procs m ↔ 1 ≤ m ∧ m < num_procs) ∧
    (∀ m : ℕ, 1 ≤ m → ∃! p : ℕ × ℕ, p.2 < 7 ∧ childId p.1 p.2 = m) := by
  refine ⟨?_, ?_, ?_⟩
  · intro r s s' _ _ h
    unfold childId at h
    omega
  · intro m
    constructor
    · intro h
      induction h with
      | root s hs hlt => unfold childId at hlt ⊢; exact ⟨by omega, hlt⟩
      | step r s _ hs hlt _ => unfold childId at hlt ⊢; exact ⟨by omega, hlt⟩
    · rintro ⟨h1, h2⟩
      exact reachableWorker_of_bounds num_procs m h1 h2
  · intro m hm
    refine ⟨((m - 1) / 7, (m - 1) % 7), ⟨by omega, by unfold childId; omega⟩, ?_⟩
    rintro ⟨r, s⟩ ⟨hs7, hcs⟩
    unfold childId at hcs
    simp only [Prod.mk.injEq]
    constructor <;> omega

theorem claim_C8_witness :
    (1 ≤ 8 ∧ 8 < 9) ∧ ReachableWorker 9 8 :=
  ⟨⟨by decide, by decide⟩,
    ((claim_C8_process_tree 9).2.1 8).mpr ⟨by decide, by decide⟩⟩
